import Mathlib

/-!
# cache-server: cache-aside handler, transparent proxy and forwarder

A shallow embedding of `cache-server.go`.  The handlers `HashCacheServer`,
`Proxy` and `Forward` are translated statement by statement.  The packages
they call (`crypto/md5`, `encoding/hex`, `net/http`, `gomemcache`) are not
part of the repository; each is given here by a small executable model of its
documented behaviour, and the network (upstream origin, memcached nodes) is a
parameter of the environment.
-/

set_option autoImplicit false

/-- A Go byte slice (and the bytes of a Go string). -/
abbrev Bytes := List UInt8

/-! ## crypto/md5 (RFC 1321) -/

namespace md5

/-- Per-round left-rotation amounts. -/
def shifts : List Nat :=
  [7, 12, 17, 22, 7, 12, 17, 22, 7, 12, 17, 22, 7, 12, 17, 22,
   5, 9, 14, 20, 5, 9, 14, 20, 5, 9, 14, 20, 5, 9, 14, 20,
   4, 11, 16, 23, 4, 11, 16, 23, 4, 11, 16, 23, 4, 11, 16, 23,
   6, 10, 15, 21, 6, 10, 15, 21, 6, 10, 15, 21, 6, 10, 15, 21]

/-- The sine table: entry `i` is `floor (2^32 * |sin (i + 1)|)`. -/
def table : List Nat :=
  [0xd76aa478, 0xe8c7b756, 0x242070db, 0xc1bdceee, 0xf57c0faf, 0x4787c62a, 0xa8304613, 0xfd469501,
   0x698098d8, 0x8b44f7af, 0xffff5bb1, 0x895cd7be, 0x6b901122, 0xfd987193, 0xa679438e, 0x49b40821,
   0xf61e2562, 0xc040b340, 0x265e5a51, 0xe9b6c7aa, 0xd62f105d, 0x02441453, 0xd8a1e681, 0xe7d3fbc8,
   0x21e1cde6, 0xc33707d6, 0xf4d50d87, 0x455a14ed, 0xa9e3e905, 0xfcefa3f8, 0x676f02d9, 0x8d2a4c8a,
   0xfffa3942, 0x8771f681, 0x6d9d6122, 0xfde5380c, 0xa4beea44, 0x4bdecfa9, 0xf6bb4b60, 0xbebfbc70,
   0x289b7ec6, 0xeaa127fa, 0xd4ef3085, 0x04881d05, 0xd9d4d039, 0xe6db99e5, 0x1fa27cf8, 0xc4ac5665,
   0xf4292244, 0x432aff97, 0xab9423a7, 0xfc93a039, 0x655b59c3, 0x8f0ccc92, 0xffeff47d, 0x85845dd1,
   0x6fa87e4f, 0xfe2ce6e0, 0xa3014314, 0x4e0811a1, 0xf7537e82, 0xbd3af235, 0x2ad7d2bb, 0xeb86d391]

/-- Size of a 32-bit word. -/
def wordSize : Nat := 4294967296

/-- Rotate the 32-bit word `x` left by `n` bits (`0 < n < 32`). -/
def rotl (x n : Nat) : Nat :=
  ((x <<< n) ||| (x >>> (32 - n))) % wordSize

/-- Bitwise complement of a 32-bit word. -/
def not32 (x : Nat) : Nat := x ^^^ 0xffffffff

/-- The working state: the four 32-bit registers A, B, C, D. -/
structure State where
  a : Nat
  b : Nat
  c : Nat
  d : Nat
deriving DecidableEq, Repr

/-- Initial register values. -/
def init : State := ⟨0x67452301, 0xefcdab89, 0x98badcfe, 0x10325476⟩

/-- Little-endian 32-bit word number `i` of a block of bytes. -/
def wordAt (block : Bytes) (i : Nat) : Nat :=
  (block.getD (4 * i) 0).toNat
    + 256 * (block.getD (4 * i + 1) 0).toNat
    + 65536 * (block.getD (4 * i + 2) 0).toNat
    + 16777216 * (block.getD (4 * i + 3) 0).toNat

/-- One of the 64 steps applied to a 64-byte block. -/
def step (block : Bytes) (st : State) (i : Nat) : State :=
  let f :=
    if i < 16 then (st.b &&& st.c) ||| (not32 st.b &&& st.d)
    else if i < 32 then (st.d &&& st.b) ||| (not32 st.d &&& st.c)
    else if i < 48 then st.b ^^^ st.c ^^^ st.d
    else st.c ^^^ (st.b ||| not32 st.d)
  let g :=
    if i < 16 then i
    else if i < 32 then (5 * i + 1) % 16
    else if i < 48 then (3 * i + 5) % 16
    else (7 * i) % 16
  let sum := (f + st.a + table.getD i 0 + wordAt block g) % wordSize
  ⟨st.d, (st.b + rotl sum (shifts.getD i 0)) % wordSize, st.b, st.c⟩

/-- Process one 64-byte block. -/
def compress (st : State) (block : Bytes) : State :=
  let r := (List.range 64).foldl (step block) st
  ⟨(st.a + r.a) % wordSize, (st.b + r.b) % wordSize,
   (st.c + r.c) % wordSize, (st.d + r.d) % wordSize⟩

/-- The `n` low bytes of `x`, least significant first. -/
def leBytes : Nat → Nat → Bytes
  | 0, _ => []
  | n + 1, x => UInt8.ofNat (x % 256) :: leBytes n (x / 256)

/-- Padding: a one bit, zero bits up to 56 mod 64, then the bit length as a
64-bit little-endian integer. -/
def pad (data : Bytes) : Bytes :=
  data ++ [0x80] ++ List.replicate ((119 - data.length % 64) % 64) 0
    ++ leBytes 8 ((8 * data.length) % 18446744073709551616)

/-- Split into `n` consecutive 64-byte blocks. -/
def blocks : Nat → Bytes → List Bytes
  | 0, _ => []
  | n + 1, bs => bs.take 64 :: blocks n (bs.drop 64)

/-- The Go function `md5.Sum`: the 16-byte MD5 checksum of the data. -/
def Sum (data : Bytes) : Bytes :=
  let padded := pad data
  let st := (blocks (padded.length / 64) padded).foldl compress init
  leBytes 4 st.a ++ leBytes 4 st.b ++ leBytes 4 st.c ++ leBytes 4 st.d

end md5

/-! ## encoding/hex -/

namespace hex

/-- The table of `encoding/hex`. -/
def hextable : List Char := "0123456789abcdef".data

/-- The digit for a nibble. -/
def digit (n : Nat) : Char := hextable.getD n '0'

/-- The encoding loop of `hex.Encode`: two characters per byte, the high
nibble first. -/
def encode : Bytes → List Char
  | [] => []
  | v :: rest => digit (v.toNat >>> 4) :: digit (v.toNat &&& 0x0f) :: encode rest

/-- The Go function `hex.EncodeToString`. -/
def EncodeToString (src : Bytes) : String := String.mk (encode src)

end hex

/-- The cache key of an input value: lines 83-84 of `HashCacheServer`,
`md5Hash := md5.Sum([]byte(input)); key := hex.EncodeToString(md5Hash[:])`. -/
def cacheKey (input : Bytes) : String := hex.EncodeToString (md5.Sum input)

/-! ## Go errors and body streams -/

/-- A Go `error` value. -/
inductive GoError where
  | ErrCacheMiss
  | ErrMalformedKey
  | other (msg : String)
deriving DecidableEq, Repr

/-- The Go type `io.ReadCloser`, a body stream: the bytes it delivers and the
error, if any, that ends the stream. -/
structure ReadCloser where
  data : Bytes
  err : Option GoError
deriving DecidableEq, Repr

namespace ioutil

/-- The Go function `ioutil.ReadAll`: everything the stream delivers, and the
error that stopped it. -/
def ReadAll (b : ReadCloser) : Bytes × Option GoError := (b.data, b.err)

end ioutil

/-! ## net/http -/

namespace http

/-- Token characters of RFC 7230 (the `isTokenTable` of net/http). -/
def isToken (c : Char) : Bool :=
  c.isAlphanum || "!#$%&*+-.^_|~".data.contains c
    || c == Char.ofNat 39 || c == Char.ofNat 96

/-- The method check of net/http: a non-empty token. -/
def validMethod (method : String) : Bool :=
  decide (0 < method.length) && method.data.all isToken

/-- The case-fixing loop of `textproto.CanonicalMIMEHeaderKey`; `upper` says
whether the next letter starts a word. -/
def canonicalLoop : Bool → List Char → List Char
  | _, [] => []
  | upper, c :: cs =>
    let c1 :=
      if upper && c.isLower then c.toUpper
      else if !upper && c.isUpper then c.toLower
      else c
    c1 :: canonicalLoop (c1 == '-') cs

/-- The Go function `textproto.CanonicalMIMEHeaderKey`: a key with a byte that
is not a token character is returned as it is; otherwise the first letter and
every letter after a hyphen are upper case and the others lower case. -/
def CanonicalMIMEHeaderKey (s : String) : String :=
  if s.data.all isToken then String.mk (canonicalLoop true s.data) else s

/-- The Go type `http.Header`, a `map[string][]string`, as its list of entries
in iteration order. -/
abbrev Header := List (String × List String)

/-- The expression `h[key]`: the values under a key, nil when the key is absent. -/
def Header.values : Header → String → List String
  | [], _ => []
  | (k, vs) :: rest, key => if k = key then vs else Header.values rest key

/-- The keys of the map. -/
def Header.keys (h : Header) : List String := h.map Prod.fst

/-- The statement `h[key] = append(h[key], value)`. -/
def Header.append : Header → String → String → Header
  | [], key, value => [(key, [value])]
  | (k, vs) :: rest, key, value =>
    if k = key then (k, vs ++ [value]) :: rest
    else (k, vs) :: Header.append rest key value

/-- The Go method `Header.Add`: append under the canonical form of the key. -/
def Header.Add (h : Header) (key value : String) : Header :=
  Header.append h (CanonicalMIMEHeaderKey key) value

/-- The Go type `url.Values`, a `map[string][]string` whose values are Go
strings (any bytes). -/
abbrev Values := List (String × List Bytes)

/-- The expression `form[key]`: the values under a key, nil when absent. -/
def Values.values : Values → String → List Bytes
  | [], _ => []
  | (k, vs) :: rest, key => if k = key then vs else Values.values rest key

/-- The Go type `http.Request`, with the fields the program reads or sets. -/
structure Request where
  Method : String
  URL : String
  RequestURI : String
  RemoteAddr : String
  Header : Header
  Body : ReadCloser
  Form : Option Values
deriving Repr

/-- The Go type `http.Response`. -/
structure Response where
  StatusCode : Nat
  Header : Header
  Body : ReadCloser
deriving Repr

/-- The Go function `http.NewRequest`: an empty method means GET; a method that
is not a token or a URL that `url.Parse` rejects gives no request. -/
def NewRequest (urlParse : String → Bool) (method url : String) (body : ReadCloser) :
    Option Request :=
  let method := if method = "" then "GET" else method
  if !validMethod method then none
  else if !urlParse url then none
  else some
    { Method := method, URL := url, RequestURI := "", RemoteAddr := "",
      Header := [], Body := body, Form := none }

/-- The Go method `Request.FormValue`: parse the form when it has not been
parsed (which may read the body), then the first value under the key, or the
empty string. -/
def Request.FormValue (parseForm : Request → Values × ReadCloser)
    (r : Request) (key : String) : Bytes × Request :=
  let r :=
    match r.Form with
    | some _ => r
    | none => { r with Form := some (parseForm r).1, Body := (parseForm r).2 }
  let vs :=
    match r.Form with
    | some form => Values.values form key
    | none => []
  (vs.headD [], r)

/-- A server-side `http.ResponseWriter`.  `header` is the map handed out by
`Header()`; `wroteHeader`, `status` and `sentHeader` record whether the status
line went out, its code, and the copy of the header map sent with it; `body`
is the bytes written to the caller. -/
structure ResponseWriter where
  header : Header
  wroteHeader : Bool
  status : Nat
  sentHeader : Header
  body : Bytes
deriving Repr

/-- The writer the server hands to a handler. -/
def ResponseWriter.fresh : ResponseWriter :=
  { header := [], wroteHeader := false, status := 0, sentHeader := [], body := [] }

/-- The Go method `WriteHeader`: send the status line and the current header
map; only the first call counts. -/
def ResponseWriter.WriteHeader (w : ResponseWriter) (code : Nat) : ResponseWriter :=
  if w.wroteHeader then w
  else { w with wroteHeader := true, status := code, sentHeader := w.header }

/-- The Go method `Write`: a first write without `WriteHeader` sends status
200, then the bytes are appended to the body. -/
def ResponseWriter.Write (w : ResponseWriter) (b : Bytes) : ResponseWriter :=
  let w := if w.wroteHeader then w else w.WriteHeader 200
  { w with body := w.body ++ b }

end http

/-! ## gomemcache -/

namespace memcache

/-- The Go type `memcache.Item`, with the fields the program sets. -/
structure Item where
  Key : String
  Value : Bytes
deriving DecidableEq, Repr

/-- The client together with the nodes behind it: what the store holds, and the
fault, if any, that the next get or the next set runs into. -/
structure Client where
  store : String → Option Bytes
  getErr : Option GoError
  setErr : Option GoError

/-- The key check of gomemcache: at most 250 bytes, no space, control character
or DEL. -/
def legalKey (key : String) : Bool :=
  decide (key.utf8ByteSize ≤ 250)
    && key.data.all (fun c => decide (Char.ofNat 32 < c) && c != Char.ofNat 127)

/-- The Go method `Client.Get`: the item under the key, `ErrCacheMiss` when the
store has none, or the fault. -/
def Client.Get (mc : Client) (key : String) : Option Item × Option GoError :=
  if !legalKey key then (none, some GoError.ErrMalformedKey)
  else
    match mc.getErr with
    | some e => (none, some e)
    | none =>
      match mc.store key with
      | some v => (some { Key := key, Value := v }, none)
      | none => (none, some GoError.ErrCacheMiss)

/-- The Go method `Client.Set`: write the item unconditionally, or fail with
the fault and leave the store as it was. -/
def Client.Set (mc : Client) (item : Item) : Client × Option GoError :=
  if !legalKey item.Key then (mc, some GoError.ErrMalformedKey)
  else
    match mc.setErr with
    | some e => (mc, some e)
    | none =>
      ({ mc with store := fun k => if k = item.Key then some item.Value else mc.store k },
        none)

end memcache

/-! ## The program -/

/-- What lies outside the process: the memcached client `mc` with its nodes,
the URL check of `url.Parse`, the form parser behind `FormValue`, and the
upstream exchange performed by `client.Do`. -/
structure Env where
  mc : memcache.Client
  urlParse : String → Bool
  parseForm : http.Request → http.Values × ReadCloser
  roundTrip : http.Request → Option http.Response × Option GoError

/-- How a call of `Forward` ends: a nil-pointer panic, or the pair returned by
`client.Do` together with the outbound request it was given. -/
inductive ForwardResult where
  | panic
  | ret (targetRequest : http.Request) (resp : Option http.Response) (err : Option GoError)

/-- The function `Forward`.  When `http.NewRequest` fails its error is
discarded and `targetRequest` is nil, so the code that follows dereferences a
nil pointer. -/
def Forward (env : Env) (request : http.Request) : ForwardResult :=
  let target := "http://" ++ request.RemoteAddr ++ request.RequestURI
  match http.NewRequest env.urlParse request.Method target request.Body with
  | none => ForwardResult.panic
  | some targetRequest =>
    let header :=
      request.Header.foldl
        (fun h kv => kv.2.foldl (fun h value => http.Header.Add h kv.1 value) h)
        targetRequest.Header
    let targetRequest := { targetRequest with Header := header }
    let (resp, err) := env.roundTrip targetRequest
    ForwardResult.ret targetRequest resp err

/-- What one run of a handler did: the writer as the caller sees it, the cache
client afterwards, the gets and sets issued, the upstream calls made, the
errors printed, and whether the handler panicked. -/
structure Run where
  writer : http.ResponseWriter
  mc : memcache.Client
  gets : List String
  sets : List memcache.Item
  forwards : List http.Request
  log : List GoError
  panicked : Bool

/-- The handler `HashCacheServer`. -/
def HashCacheServer (env : Env) (writer : http.ResponseWriter) (request : http.Request) :
    Run :=
  let (input, request) := http.Request.FormValue env.parseForm request "input"
  let key := cacheKey input
  let (item, err) := env.mc.Get key
  let log := match err with
    | some e => [e]
    | none => []
  match item with
  | some item =>
    { writer := writer.Write item.Value, mc := env.mc, gets := [key], sets := [],
      forwards := [], log := log, panicked := false }
  | none =>
    match Forward env request with
    | ForwardResult.panic =>
      { writer := writer, mc := env.mc, gets := [key], sets := [], forwards := [],
        log := log, panicked := true }
    | ForwardResult.ret targetRequest resp err =>
      match err with
      | some e =>
        { writer := writer, mc := env.mc, gets := [key], sets := [],
          forwards := [targetRequest], log := log ++ [e], panicked := false }
      | none =>
        match resp with
        | none =>
          { writer := writer, mc := env.mc, gets := [key], sets := [],
            forwards := [targetRequest], log := log, panicked := true }
        | some resp =>
          let body := (ioutil.ReadAll resp.Body).1
          let writer := writer.Write body
          let item : memcache.Item := { Key := key, Value := body }
          { writer := writer, mc := (env.mc.Set item).1, gets := [key], sets := [item],
            forwards := [targetRequest], log := log, panicked := false }

/-- The handler `Proxy`.  The error of `Forward` is discarded, and
`defer targetResponse.Body.Close()` reads `targetResponse.Body` at once: a nil
response panics there, before anything is written. -/
def Proxy (env : Env) (writer : http.ResponseWriter) (request : http.Request) : Run :=
  match Forward env request with
  | ForwardResult.panic =>
    { writer := writer, mc := env.mc, gets := [], sets := [], forwards := [],
      log := [], panicked := true }
  | ForwardResult.ret targetRequest targetResponse _ =>
    match targetResponse with
    | none =>
      { writer := writer, mc := env.mc, gets := [], sets := [],
        forwards := [targetRequest], log := [], panicked := true }
    | some targetResponse =>
      let header :=
        targetResponse.Header.foldl
          (fun h kv => kv.2.foldl (fun h value => http.Header.Add h kv.1 value) h)
          writer.header
      let writer := { writer with header := header }
      let data := (ioutil.ReadAll targetResponse.Body).1
      { writer := writer.Write data, mc := env.mc, gets := [], sets := [],
        forwards := [targetRequest], log := [], panicked := false }

/-! ## Well-formed inputs and derived values -/

/-- The invariant of a header map that net/http parsed from the wire: the keys
of a map are distinct, and each key is in canonical form. -/
def http.Header.wellFormed (h : http.Header) : Prop :=
  h.keys.Nodup ∧ ∀ k ∈ h.keys, http.CanonicalMIMEHeaderKey k = k

instance (h : http.Header) : Decidable h.wellFormed := by
  unfold http.Header.wellFormed; infer_instance

/-- What the net/http server guarantees of a request it hands to a handler:
the method is a token, and the header map is well formed. -/
def http.Request.wellFormed (r : http.Request) : Prop :=
  http.validMethod r.Method = true ∧ r.Header.wellFormed

instance (r : http.Request) : Decidable r.wellFormed := by
  unfold http.Request.wellFormed; infer_instance

/-- The value of the `input` parameter that `HashCacheServer` reads. -/
def inputOf (env : Env) (request : http.Request) : Bytes :=
  (http.Request.FormValue env.parseForm request "input").1

/-- The request as `FormValue` leaves it, which `HashCacheServer` forwards. -/
def parsedRequest (env : Env) (request : http.Request) : http.Request :=
  (http.Request.FormValue env.parseForm request "input").2

/-- The outbound request that `Forward` hands to `client.Do` when
`http.NewRequest` accepts the method and the target. -/
def targetRequestOf (request : http.Request) : http.Request :=
  { Method := request.Method,
    URL := "http://" ++ request.RemoteAddr ++ request.RequestURI,
    RequestURI := "", RemoteAddr := "",
    Header :=
      request.Header.foldl
        (fun h kv => kv.2.foldl (fun h value => http.Header.Add h kv.1 value) h) [],
    Body := request.Body, Form := none }

/-! ## Concrete inputs -/

/-- The bytes of the input value `hello`. -/
def helloInput : Bytes := [104, 101, 108, 108, 111]

/-- An inbound request `GET /calc?input=hello` as the server delivers it. -/
def calcRequest : http.Request :=
  { Method := "GET", URL := "/calc?input=hello", RequestURI := "/calc?input=hello",
    RemoteAddr := "10.0.0.7:51234",
    Header := [("Accept", ["text/plain", "text/html"]), ("X-Test", ["1"])],
    Body := { data := [], err := none }, Form := none }

/-- An inbound request `POST /other/path` with a header and a body. -/
def otherRequest : http.Request :=
  { Method := "POST", URL := "/other/path", RequestURI := "/other/path",
    RemoteAddr := "10.0.0.7:51234",
    Header := [("X-Test", ["1"]), ("Accept", ["text/plain", "text/html"])],
    Body := { data := [123, 34, 97, 34, 58, 49, 125], err := none }, Form := none }

/-- An upstream response with the given status, two header keys and the body `42`. -/
def upstreamResponse (status : Nat) : http.Response :=
  { StatusCode := status,
    Header := [("Content-Type", ["text/plain"]), ("Set-Cookie", ["a=1", "b=2"])],
    Body := { data := [52, 50], err := none } }

/-- A form parser that finds `input=hello` and leaves the body alone. -/
def helloForm (r : http.Request) : http.Values × ReadCloser :=
  ([("input", [helloInput])], r.Body)

/-- An environment around the given cache client and upstream exchange. -/
def envWith (mc : memcache.Client)
    (roundTrip : http.Request → Option http.Response × Option GoError) : Env :=
  { mc := mc, urlParse := fun _ => true, parseForm := helloForm, roundTrip := roundTrip }

/-- A working cache client over an empty store. -/
def coldCache : memcache.Client :=
  { store := fun _ => none, getErr := none, setErr := none }

/-- A working cache client whose store holds `42` under the key of `hello`. -/
def warmCache : memcache.Client :=
  { store := fun k => if k = "5d41402abc4b2a76b9719d911017c592" then some [52, 50] else none,
    getErr := none, setErr := none }

/-- A cache client over an empty store whose gets work and whose sets fail, as
when the nodes refuse the item or drop out after the get. -/
def refusingCache : memcache.Client :=
  { store := fun _ => none, getErr := none,
    setErr := some (GoError.other "SERVER_ERROR object too large for cache") }

/-- A cache client whose nodes are unreachable: gets and sets fail. -/
def brokenCache : memcache.Client :=
  { store := fun _ => none, getErr := some (GoError.other "connection refused"),
    setErr := some (GoError.other "connection refused") }

/-- An upstream that answers every request with the given status. -/
def upstreamAnswers (status : Nat) (_ : http.Request) :
    Option http.Response × Option GoError :=
  (some (upstreamResponse status), none)

/-- An upstream that cannot be reached. -/
def upstreamDown (_ : http.Request) : Option http.Response × Option GoError :=
  (none, some (GoError.other "dial tcp: connection refused"))

/-! ## Facts about the key -/

theorem md5.leBytes_length (n x : Nat) : (md5.leBytes n x).length = n := by
  induction n generalizing x with
  | zero => rfl
  | succ n ih => simp [md5.leBytes, ih]

theorem md5.Sum_length (data : Bytes) : (md5.Sum data).length = 16 := by
  simp [md5.Sum, md5.leBytes_length]

theorem hex.encode_length (src : Bytes) : (hex.encode src).length = 2 * src.length := by
  induction src with
  | nil => rfl
  | cons v rest ih => simp [hex.encode, ih]; omega

theorem hex.hi_eq (v : UInt8) : v.toNat >>> 4 = v.toNat / 16 := by
  rw [Nat.shiftRight_eq_div_pow]

theorem hex.lo_eq (v : UInt8) : v.toNat &&& 0x0f = v.toNat % 16 :=
  Nat.and_pow_two_sub_one_eq_mod v.toNat 4

theorem hex.byte_lt (v : UInt8) : v.toNat < 256 := UInt8.toNat_lt v

theorem hex.hi_lt (v : UInt8) : v.toNat >>> 4 < 16 := by
  have hv := hex.byte_lt v
  rw [hex.hi_eq]; omega

theorem hex.lo_lt (v : UInt8) : v.toNat &&& 0x0f < 16 := by
  rw [hex.lo_eq]; omega

theorem hex.digit_mem : ∀ n, n < 16 → hex.digit n ∈ "0123456789abcdef".data := by
  decide

theorem hex.digit_inj : ∀ m, m < 16 → ∀ n, n < 16 → hex.digit m = hex.digit n → m = n := by
  decide

theorem hex.digit_utf8Size : ∀ n, n < 16 → (hex.digit n).utf8Size = 1 := by
  decide

theorem hex.digit_legal : ∀ n, n < 16 →
    (decide (Char.ofNat 32 < hex.digit n) && hex.digit n != Char.ofNat 127) = true := by
  decide

theorem hex.encode_mem (src : Bytes) : ∀ c ∈ hex.encode src, c ∈ "0123456789abcdef".data := by
  induction src with
  | nil => intro c hc; simp [hex.encode] at hc
  | cons v rest ih =>
    intro c hc
    simp only [hex.encode, List.mem_cons] at hc
    rcases hc with rfl | rfl | hc
    · exact hex.digit_mem _ (hex.hi_lt v)
    · exact hex.digit_mem _ (hex.lo_lt v)
    · exact ih c hc

theorem hex.encode_injective (a b : Bytes) (h : hex.encode a = hex.encode b) : a = b := by
  induction a generalizing b with
  | nil =>
    cases b with
    | nil => rfl
    | cons w rest => simp [hex.encode] at h
  | cons v rest ih =>
    cases b with
    | nil => simp [hex.encode] at h
    | cons w rest2 =>
      simp only [hex.encode, List.cons.injEq] at h
      obtain ⟨h1, h2, h3⟩ := h
      have hv := hex.byte_lt v
      have hw := hex.byte_lt w
      rw [hex.hi_eq, hex.hi_eq] at h1
      rw [hex.lo_eq, hex.lo_eq] at h2
      have e1 := hex.digit_inj _ (by omega) _ (by omega) h1
      have e2 := hex.digit_inj _ (by omega) _ (by omega) h2
      have hvw : v = w := UInt8.ext (by omega)
      rw [hvw, ih rest2 h3]

theorem hex.encode_getElem (src : Bytes) (i : Nat) (b : UInt8) (h : src[i]? = some b) :
    (hex.encode src)[2 * i]? = some ("0123456789abcdef".data.getD (b.toNat / 16) '0')
      ∧ (hex.encode src)[2 * i + 1]? = some ("0123456789abcdef".data.getD (b.toNat % 16) '0') := by
  induction src generalizing i with
  | nil => simp at h
  | cons v rest ih =>
    cases i with
    | zero =>
      simp only [List.getElem?_cons_zero, Option.some.injEq] at h
      subst h
      simp only [hex.encode, Nat.mul_zero, List.getElem?_cons_zero, Nat.zero_add,
        List.getElem?_cons_succ, hex.hi_eq, hex.lo_eq]
      exact ⟨rfl, rfl⟩
    | succ j =>
      simp only [List.getElem?_cons_succ] at h
      have := ih j h
      have e : 2 * (j + 1) = 2 * j + 1 + 1 := by omega
      simp only [hex.encode, e, List.getElem?_cons_succ]
      exact this

theorem cacheKey_utf8ByteSize_aux (src : Bytes) :
    String.utf8ByteSize.go (hex.encode src) = 2 * src.length := by
  induction src with
  | nil => rfl
  | cons v rest ih =>
    simp only [hex.encode, String.utf8ByteSize.go, ih, List.length_cons,
      hex.digit_utf8Size _ (hex.hi_lt v), hex.digit_utf8Size _ (hex.lo_lt v)]
    omega

theorem hex.encode_legal (src : Bytes) :
    (hex.encode src).all (fun c => decide (Char.ofNat 32 < c) && c != Char.ofNat 127) = true := by
  induction src with
  | nil => rfl
  | cons v rest ih =>
    simp only [hex.encode, List.all_cons, ih, Bool.and_true,
      hex.digit_legal _ (hex.hi_lt v), hex.digit_legal _ (hex.lo_lt v)]

/-- The key of any input passes the key check of the memcached client. -/
theorem legalKey_cacheKey (input : Bytes) : memcache.legalKey (cacheKey input) = true := by
  have h1 : (cacheKey input).utf8ByteSize = 32 := by
    show String.utf8ByteSize.go (hex.encode (md5.Sum input)) = 32
    rw [cacheKey_utf8ByteSize_aux, md5.Sum_length]
  have h2 := hex.encode_legal (md5.Sum input)
  simp only [memcache.legalKey, h1]
  simpa [cacheKey, hex.EncodeToString] using h2

/-- Test vectors of RFC 1321 for the model of `md5.Sum`, through the key. -/
theorem cacheKey_empty : cacheKey [] = "d41d8cd98f00b204e9800998ecf8427e" := by
  set_option maxRecDepth 100000 in decide

/-- The key of the input `hello`. -/
theorem cacheKey_hello :
    cacheKey [104, 101, 108, 108, 111] = "5d41402abc4b2a76b9719d911017c592" := by
  set_option maxRecDepth 100000 in decide

/-- The key of the input `abc`. -/
theorem cacheKey_abc : cacheKey [97, 98, 99] = "900150983cd24fb0d6963f7d28e17f72" := by
  set_option maxRecDepth 100000 in decide

/-! ## Facts about header maps -/

theorem http.Header.values_of_not_mem (h : http.Header) (k : String) (hk : k ∉ h.keys) :
    h.values k = [] := by
  induction h with
  | nil => rfl
  | cons e rest ih =>
    obtain ⟨k1, vs⟩ := e
    simp only [http.Header.keys, List.map_cons, List.mem_cons, not_or] at hk
    have hne : ¬ k1 = k := fun h => hk.1 h.symm
    simp only [http.Header.values, hne, if_false]
    exact ih hk.2

theorem http.Header.values_append (h : http.Header) (k v k1 : String) :
    (h.append k v).values k1 = if k1 = k then h.values k ++ [v] else h.values k1 := by
  induction h with
  | nil =>
    by_cases e : k1 = k
    · subst e; simp [http.Header.append, http.Header.values]
    · have e2 : ¬ k = k1 := fun h => e h.symm
      simp [http.Header.append, http.Header.values, e, e2]
  | cons e rest ih =>
    obtain ⟨k2, vs⟩ := e
    by_cases h2 : k2 = k
    · subst h2
      by_cases e : k1 = k2
      · subst e; simp [http.Header.append, http.Header.values]
      · have e2 : ¬ k2 = k1 := fun h => e h.symm
        simp [http.Header.append, http.Header.values, e, e2]
    · by_cases e : k1 = k
      · subst e
        simp [http.Header.append, http.Header.values, h2, ih]
      · by_cases e3 : k2 = k1
        · simp [http.Header.append, http.Header.values, h2, e, e3]
        · simp [http.Header.append, http.Header.values, h2, e, e3, ih]

theorem http.Header.keys_append (h : http.Header) (k v k1 : String)
    (hk : k1 ∈ (h.append k v).keys) : k1 ∈ h.keys ∨ k1 = k := by
  induction h with
  | nil => simpa [http.Header.append, http.Header.keys] using hk
  | cons e rest ih =>
    obtain ⟨k2, vs⟩ := e
    by_cases h2 : k2 = k
    · simp only [http.Header.append, h2, if_true, http.Header.keys, List.map_cons,
        List.mem_cons] at hk ⊢
      rcases hk with hk | hk
      · exact Or.inr hk
      · exact Or.inl (Or.inr hk)
    · simp only [http.Header.append, h2, if_false, http.Header.keys, List.map_cons,
        List.mem_cons] at hk ⊢
      rcases hk with hk | hk
      · exact Or.inl (Or.inl hk)
      · rcases ih hk with h3 | h3
        · exact Or.inl (Or.inr h3)
        · exact Or.inr h3

theorem http.Header.values_addAll (h : http.Header) (k : String) (vals : List String)
    (k1 : String) :
    (vals.foldl (fun h value => http.Header.append h k value) h).values k1
      = if k1 = k then h.values k ++ vals else h.values k1 := by
  induction vals generalizing h with
  | nil => by_cases e : k1 = k <;> simp [e]
  | cons v rest ih =>
    simp only [List.foldl_cons, ih, http.Header.values_append]
    by_cases e : k1 = k <;> simp [e]

theorem http.Header.keys_addAll (h : http.Header) (k : String) (vals : List String)
    (k1 : String)
    (hk : k1 ∈ (vals.foldl (fun h value => http.Header.append h k value) h).keys) :
    k1 ∈ h.keys ∨ k1 = k := by
  induction vals generalizing h with
  | nil => exact Or.inl hk
  | cons v rest ih =>
    rcases ih _ hk with h1 | h1
    · exact http.Header.keys_append h k v k1 h1
    · exact Or.inr h1

/-- Copying a well-formed header map with `Add`, as both loops do, appends the
values of every key to what the destination held under that key. -/
theorem http.Header.values_copy (src : http.Header) (hsrc : src.wellFormed)
    (dst : http.Header) (k1 : String) :
    (src.foldl (fun h kv => kv.2.foldl (fun h value => http.Header.Add h kv.1 value) h)
      dst).values k1 = dst.values k1 ++ src.values k1 := by
  induction src generalizing dst with
  | nil => simp [http.Header.values]
  | cons e rest ih =>
    obtain ⟨k, vs⟩ := e
    obtain ⟨hnd, hcan⟩ := hsrc
    simp only [http.Header.keys, List.map_cons, List.nodup_cons] at hnd
    have hk : http.CanonicalMIMEHeaderKey k = k :=
      hcan k (by simp [http.Header.keys])
    have hrest : http.Header.wellFormed rest :=
      ⟨hnd.2, fun k2 h2 => hcan k2 (by
        simp only [http.Header.keys, List.map_cons, List.mem_cons]
        exact Or.inr h2)⟩
    have hadd : (fun (h : http.Header) value => http.Header.Add h k value)
        = (fun h value => http.Header.append h k value) := by
      funext h value; simp only [http.Header.Add, hk]
    rw [List.foldl_cons, ih hrest]
    show (List.foldl (fun h value => http.Header.Add h k value) dst vs).values k1 ++ _ = _
    rw [hadd, http.Header.values_addAll]
    by_cases e : k1 = k
    · subst e
      have h0 := http.Header.values_of_not_mem rest k1 hnd.1
      simp [http.Header.values, h0]
    · have e2 : ¬ k = k1 := fun h => e h.symm
      simp [http.Header.values, e, e2]

/-- Copying a well-formed header map with `Add` creates no key that neither
map had. -/
theorem http.Header.keys_copy (src : http.Header) (hsrc : src.wellFormed)
    (dst : http.Header) (k1 : String)
    (hk : k1 ∈ (src.foldl
      (fun h kv => kv.2.foldl (fun h value => http.Header.Add h kv.1 value) h) dst).keys) :
    k1 ∈ dst.keys ∨ k1 ∈ src.keys := by
  induction src generalizing dst with
  | nil => exact Or.inl hk
  | cons e rest ih =>
    obtain ⟨k, vs⟩ := e
    obtain ⟨hnd, hcan⟩ := hsrc
    simp only [http.Header.keys, List.map_cons, List.nodup_cons] at hnd
    have hkc : http.CanonicalMIMEHeaderKey k = k :=
      hcan k (by simp [http.Header.keys])
    have hrest : http.Header.wellFormed rest :=
      ⟨hnd.2, fun k2 h2 => hcan k2 (by
        simp only [http.Header.keys, List.map_cons, List.mem_cons]
        exact Or.inr h2)⟩
    have hadd : (fun (h : http.Header) value => http.Header.Add h k value)
        = (fun h value => http.Header.append h k value) := by
      funext h value; simp only [http.Header.Add, hkc]
    rw [List.foldl_cons] at hk
    simp only [http.Header.keys, List.map_cons, List.mem_cons]
    rcases ih hrest _ hk with h1 | h1
    · have h1b : k1 ∈ (List.foldl (fun h value => http.Header.Add h k value) dst vs).keys := h1
      rw [hadd] at h1b
      rcases http.Header.keys_addAll dst k vs k1 h1b with h2 | h2
      · exact Or.inl h2
      · exact Or.inr (Or.inl h2)
    · exact Or.inr (Or.inr h1)

/-! ## Canonical header keys -/

theorem http.isLower_bounds (c : Char) (h : c.isLower = true) : c.toNat < 128 := by
  simp only [Char.isLower, Bool.and_eq_true, decide_eq_true_eq, ge_iff_le] at h
  simp only [UInt32.le_def] at h
  exact Nat.lt_of_le_of_lt h.2 (by decide)

theorem http.isUpper_bounds (c : Char) (h : c.isUpper = true) : c.toNat < 128 := by
  simp only [Char.isUpper, Bool.and_eq_true, decide_eq_true_eq, ge_iff_le] at h
  simp only [UInt32.le_def] at h
  exact Nat.lt_of_le_of_lt h.2 (by decide)

theorem http.toUpper_isUpper (c : Char) (h : c.isLower = true) :
    c.toUpper.isUpper = true ∧ c.toUpper.isLower = false := by
  have key : ∀ n, n < 128 → (Char.ofNat n).isLower = true →
      (Char.ofNat n).toUpper.isUpper = true ∧ (Char.ofNat n).toUpper.isLower = false := by
    decide
  have := key c.toNat (http.isLower_bounds c h)
  rw [Char.ofNat_toNat] at this
  exact this h

theorem http.toLower_isLower (c : Char) (h : c.isUpper = true) :
    c.toLower.isLower = true ∧ c.toLower.isUpper = false := by
  have key : ∀ n, n < 128 → (Char.ofNat n).isUpper = true →
      (Char.ofNat n).toLower.isLower = true ∧ (Char.ofNat n).toLower.isUpper = false := by
    decide
  have := key c.toNat (http.isUpper_bounds c h)
  rw [Char.ofNat_toNat] at this
  exact this h

/-- One step of the case-fixing loop, as a function of the flag and the byte. -/
theorem http.canonicalLoop_cons (upper : Bool) (c : Char) (cs : List Char) :
    http.canonicalLoop upper (c :: cs)
      = (if (upper && c.isLower) = true then c.toUpper
          else if (!upper && c.isUpper) = true then c.toLower else c)
        :: http.canonicalLoop
            ((if (upper && c.isLower) = true then c.toUpper
              else if (!upper && c.isUpper) = true then c.toLower else c) == '-') cs := rfl

theorem http.canonicalLoop_idem (upper : Bool) (cs : List Char) :
    http.canonicalLoop upper (http.canonicalLoop upper cs) = http.canonicalLoop upper cs := by
  induction cs generalizing upper with
  | nil => rfl
  | cons c cs ih =>
    rw [http.canonicalLoop_cons upper c cs]
    cases upper with
    | true =>
      by_cases hl : c.isLower = true
      · have hu := http.toUpper_isUpper c hl
        simp only [Bool.true_and, hl, if_true]
        rw [http.canonicalLoop_cons]
        simp only [Bool.true_and, hu.2, Bool.false_eq_true, if_false, Bool.not_true,
          Bool.false_and, ih]
      · simp only [Bool.true_and, hl, if_false, Bool.not_true, Bool.false_and,
          Bool.false_eq_true]
        rw [http.canonicalLoop_cons]
        simp only [Bool.true_and, hl, if_false, Bool.not_true, Bool.false_and,
          Bool.false_eq_true, ih]
    | false =>
      by_cases hu : c.isUpper = true
      · have hl := http.toLower_isLower c hu
        simp only [Bool.false_and, Bool.false_eq_true, if_false, Bool.not_false,
          Bool.true_and, hu, if_true]
        rw [http.canonicalLoop_cons]
        simp only [Bool.false_and, Bool.false_eq_true, if_false, Bool.not_false,
          Bool.true_and, hl.2, ih]
      · simp only [Bool.false_and, Bool.false_eq_true, if_false, Bool.not_false,
          Bool.true_and, hu]
        rw [http.canonicalLoop_cons]
        simp only [Bool.false_and, Bool.false_eq_true, if_false, Bool.not_false,
          Bool.true_and, hu, ih]

theorem http.isToken_of_isUpper (c : Char) (h : c.isUpper = true) : http.isToken c = true := by
  simp [http.isToken, Char.isAlphanum, Char.isAlpha, h]

theorem http.isToken_of_isLower (c : Char) (h : c.isLower = true) : http.isToken c = true := by
  simp [http.isToken, Char.isAlphanum, Char.isAlpha, h]

theorem http.canonicalLoop_token (upper : Bool) (cs : List Char)
    (h : cs.all http.isToken = true) :
    (http.canonicalLoop upper cs).all http.isToken = true := by
  induction cs generalizing upper with
  | nil => rfl
  | cons c cs ih =>
    simp only [List.all_cons, Bool.and_eq_true] at h
    rw [http.canonicalLoop_cons upper c cs]
    simp only [List.all_cons, Bool.and_eq_true]
    refine ⟨?_, ih _ h.2⟩
    split
    · rename_i h1
      have h1b := (Bool.and_eq_true _ _ ▸ h1 : upper = true ∧ c.isLower = true)
      exact http.isToken_of_isUpper _ (http.toUpper_isUpper c h1b.2).1
    · split
      · rename_i h1 h2
        have h2b := (Bool.and_eq_true _ _ ▸ h2 : (!upper) = true ∧ c.isUpper = true)
        exact http.isToken_of_isLower _ (http.toLower_isLower c h2b.2).1
      · exact h.1

/-- Canonical keys are fixed points: a key that `CanonicalMIMEHeaderKey`
produced, as every key of a parsed header map is, satisfies the key condition
of `Header.wellFormed`. -/
theorem http.CanonicalMIMEHeaderKey_idem (s : String) :
    http.CanonicalMIMEHeaderKey (http.CanonicalMIMEHeaderKey s)
      = http.CanonicalMIMEHeaderKey s := by
  by_cases h : s.data.all http.isToken = true
  · have h2 := http.canonicalLoop_token true s.data h
    simp only [http.CanonicalMIMEHeaderKey, h, if_true, h2, http.canonicalLoop_idem]
  · have h3 : http.CanonicalMIMEHeaderKey s = s := by
      unfold http.CanonicalMIMEHeaderKey
      rw [if_neg h]
    rw [h3, h3]

/-! ## The runs of the handlers -/

theorem HashCacheServer_gets (env : Env) (w : http.ResponseWriter) (r : http.Request) :
    (HashCacheServer env w r).gets = [cacheKey (inputOf env r)] := by
  unfold HashCacheServer inputOf
  simp only []
  split <;> try rfl
  split <;> try rfl
  split <;> try rfl
  split <;> rfl

theorem memcache.Get_cacheKey (mc : memcache.Client) (input : Bytes) :
    mc.Get (cacheKey input) =
      match mc.getErr with
      | some e => (none, some e)
      | none =>
        match mc.store (cacheKey input) with
        | some v => (some { Key := cacheKey input, Value := v }, none)
        | none => (none, some GoError.ErrCacheMiss) := by
  simp [memcache.Client.Get, legalKey_cacheKey]

theorem memcache.Set_cacheKey (mc : memcache.Client) (input : Bytes) (v : Bytes) :
    mc.Set { Key := cacheKey input, Value := v } =
      match mc.setErr with
      | some e => (mc, some e)
      | none =>
        ({ mc with store := fun k => if k = cacheKey input then some v else mc.store k },
          none) := by
  simp [memcache.Client.Set, legalKey_cacheKey]

/-- The run of `HashCacheServer` when the get returns no item and `Forward`
returns a response without error. -/
theorem HashCacheServer_populate (env : Env) (w : http.ResponseWriter) (r : http.Request)
    (t : http.Request) (resp : http.Response) (e : Option GoError)
    (hget : env.mc.Get (cacheKey (inputOf env r)) = (none, e))
    (hfwd : Forward env (parsedRequest env r) = ForwardResult.ret t (some resp) none) :
    HashCacheServer env w r =
      { writer := w.Write resp.Body.data,
        mc := (env.mc.Set { Key := cacheKey (inputOf env r), Value := resp.Body.data }).1,
        gets := [cacheKey (inputOf env r)],
        sets := [{ Key := cacheKey (inputOf env r), Value := resp.Body.data }],
        forwards := [t],
        log := e.toList,
        panicked := false } := by
  unfold inputOf at hget
  unfold parsedRequest at hfwd
  unfold HashCacheServer inputOf
  simp only [hget, hfwd, ioutil.ReadAll]
  cases e <;> rfl

/-- The run of `HashCacheServer` when the get returns an item. -/
theorem HashCacheServer_hit (env : Env) (w : http.ResponseWriter) (r : http.Request)
    (item : memcache.Item) (e : Option GoError)
    (hget : env.mc.Get (cacheKey (inputOf env r)) = (some item, e)) :
    HashCacheServer env w r =
      { writer := w.Write item.Value, mc := env.mc,
        gets := [cacheKey (inputOf env r)], sets := [], forwards := [],
        log := e.toList, panicked := false } := by
  unfold inputOf at hget
  unfold HashCacheServer inputOf
  simp only [hget]
  cases e <;> rfl

/-- The run of `HashCacheServer` when the get returns no item and `Forward`
returns an error. -/
theorem HashCacheServer_forward_error (env : Env) (w : http.ResponseWriter)
    (r : http.Request) (t : http.Request) (resp : Option http.Response)
    (e : Option GoError) (ferr : GoError)
    (hget : env.mc.Get (cacheKey (inputOf env r)) = (none, e))
    (hfwd : Forward env (parsedRequest env r) = ForwardResult.ret t resp (some ferr)) :
    HashCacheServer env w r =
      { writer := w, mc := env.mc,
        gets := [cacheKey (inputOf env r)], sets := [], forwards := [t],
        log := e.toList ++ [ferr], panicked := false } := by
  unfold inputOf at hget
  unfold parsedRequest at hfwd
  unfold HashCacheServer inputOf
  simp only [hget, hfwd]
  cases e <;> rfl

/-- The run of `Proxy` when `Forward` returns a response. -/
theorem Proxy_response (env : Env) (w : http.ResponseWriter) (r : http.Request)
    (t : http.Request) (resp : http.Response) (e : Option GoError)
    (hfwd : Forward env r = ForwardResult.ret t (some resp) e) :
    Proxy env w r =
      { writer :=
          http.ResponseWriter.Write
            { w with header := (resp.Header.foldl
                (fun h kv => kv.2.foldl (fun h value => http.Header.Add h kv.1 value) h)
                w.header) }
            resp.Body.data,
        mc := env.mc, gets := [], sets := [], forwards := [t], log := [],
        panicked := false } := by
  unfold Proxy
  simp only [hfwd, ioutil.ReadAll]

/-- The run of `Proxy` when `Forward` returns no response. -/
theorem Proxy_no_response (env : Env) (w : http.ResponseWriter) (r : http.Request)
    (t : http.Request) (e : Option GoError)
    (hfwd : Forward env r = ForwardResult.ret t none e) :
    Proxy env w r =
      { writer := w, mc := env.mc, gets := [], sets := [], forwards := [t], log := [],
        panicked := true } := by
  unfold Proxy
  simp only [hfwd]

theorem http.validMethod_ne_empty (m : String) (h : http.validMethod m = true) : m ≠ "" := by
  intro e
  subst e
  simp [http.validMethod] at h

/-- For a request with a valid method and a target that `url.Parse` accepts,
`Forward` does not panic: it performs one exchange, with `targetRequestOf`. -/
theorem Forward_returns (env : Env) (r : http.Request)
    (hm : http.validMethod r.Method = true)
    (hurl : env.urlParse ("http://" ++ r.RemoteAddr ++ r.RequestURI) = true) :
    Forward env r =
      ForwardResult.ret (targetRequestOf r) (env.roundTrip (targetRequestOf r)).1
        (env.roundTrip (targetRequestOf r)).2 := by
  have hne := http.validMethod_ne_empty r.Method hm
  simp [Forward, http.NewRequest, hne, hm, hurl, targetRequestOf]

/-- Whenever `Forward` returns, the outbound request is `targetRequestOf` up to
the method, which is GET for an empty inbound method. -/
theorem Forward_ret_inv (env : Env) (r t : http.Request) (resp : Option http.Response)
    (err : Option GoError) (h : Forward env r = ForwardResult.ret t resp err) :
    t = { targetRequestOf r with Method := if r.Method = "" then "GET" else r.Method }
      ∧ env.roundTrip t = (resp, err) := by
  by_cases hm0 : r.Method = ""
  · by_cases hu : env.urlParse ("http://" ++ r.RemoteAddr ++ r.RequestURI) = true
    · have hv : http.validMethod "GET" = true := by decide
      simp only [Forward, http.NewRequest, hm0, if_true, hv, hu, Bool.not_true,
        Bool.false_eq_true, if_false, ForwardResult.ret.injEq] at h
      obtain ⟨h1, h2, h3⟩ := h
      subst h1
      exact ⟨by simp [targetRequestOf, hm0], Prod.ext h2 h3⟩
    · simp [Forward, http.NewRequest, hm0, hu] at h
  · by_cases hv : http.validMethod r.Method = true
    · by_cases hu : env.urlParse ("http://" ++ r.RemoteAddr ++ r.RequestURI) = true
      · simp only [Forward, http.NewRequest, hm0, if_false, hv, hu, Bool.not_true,
          Bool.false_eq_true, ForwardResult.ret.injEq] at h
        obtain ⟨h1, h2, h3⟩ := h
        subst h1
        exact ⟨by simp [targetRequestOf, hm0], Prod.ext h2 h3⟩
      · simp [Forward, http.NewRequest, hm0, hv, hu] at h
    · simp [Forward, http.NewRequest, hm0, hv] at h

/-! ## The claims -/

/-- C1, as the code has it: on the cache-aside path, when the store holds no
entry under the key of the input and the get works, the get reports a miss;
when the upstream call then returns a response with body `b` (whatever its
status), one upstream call is made, the body written to the caller is `b`, one
set is issued, with that key and `b`, and when the store accepts that set it
maps the key to `b` afterwards and every other key as before. -/
theorem C1_miss_fetches_once_and_populates (env : Env) (r t : http.Request)
    (resp : http.Response)
    (hcold : env.mc.store (cacheKey (inputOf env r)) = none)
    (hworks : env.mc.getErr = none)
    (hup : Forward env (parsedRequest env r) = ForwardResult.ret t (some resp) none) :
    env.mc.Get (cacheKey (inputOf env r)) = (none, some GoError.ErrCacheMiss)
      ∧ (HashCacheServer env http.ResponseWriter.fresh r).forwards = [t]
      ∧ (HashCacheServer env http.ResponseWriter.fresh r).writer.body = resp.Body.data
      ∧ (HashCacheServer env http.ResponseWriter.fresh r).sets
          = [{ Key := cacheKey (inputOf env r), Value := resp.Body.data }]
      ∧ (HashCacheServer env http.ResponseWriter.fresh r).panicked = false
      ∧ (env.mc.setErr = none →
          (HashCacheServer env http.ResponseWriter.fresh r).mc.store
              (cacheKey (inputOf env r)) = some resp.Body.data
            ∧ ∀ k, k ≠ cacheKey (inputOf env r) →
                (HashCacheServer env http.ResponseWriter.fresh r).mc.store k
                  = env.mc.store k) := by
  have hmiss : env.mc.Get (cacheKey (inputOf env r)) = (none, some GoError.ErrCacheMiss) := by
    rw [memcache.Get_cacheKey, hworks, hcold]
  rw [HashCacheServer_populate env _ r t resp _ hmiss hup]
  refine ⟨hmiss, rfl, rfl, rfl, rfl, ?_⟩
  intro hset
  simp only [memcache.Set_cacheKey, hset]
  constructor
  · simp
  · intro k hk
    simp [hk]

/-- C1 as amended, at the request `GET /calc?input=hello` with a cold cache
that accepts the set and an upstream that answers 200 with body `42`. -/
theorem C1_witness :
    (HashCacheServer (envWith coldCache (upstreamAnswers 200)) http.ResponseWriter.fresh
        calcRequest).forwards
        = [targetRequestOf (parsedRequest (envWith coldCache (upstreamAnswers 200)) calcRequest)]
      ∧ (HashCacheServer (envWith coldCache (upstreamAnswers 200)) http.ResponseWriter.fresh
        calcRequest).writer.body = [52, 50]
      ∧ (HashCacheServer (envWith coldCache (upstreamAnswers 200)) http.ResponseWriter.fresh
        calcRequest).mc.store
          (cacheKey (inputOf (envWith coldCache (upstreamAnswers 200)) calcRequest))
          = some [52, 50] := by
  have h := C1_miss_fetches_once_and_populates (envWith coldCache (upstreamAnswers 200))
    calcRequest
    (targetRequestOf (parsedRequest (envWith coldCache (upstreamAnswers 200)) calcRequest))
    (upstreamResponse 200) rfl rfl (Forward_returns _ _ (by decide) rfl)
  exact ⟨h.2.1, h.2.2.1, (h.2.2.2.2.2 rfl).1⟩

/-- C1 as stated fails: at the request `GET /calc?input=hello`, with a store
that holds nothing, a get that reports a miss and an upstream that answers 200
with body `42`, one upstream call is made, `42` is written and one set with the
key and `42` is issued; the store refuses the set, its error is discarded, and
afterwards the store holds nothing under the key. -/
theorem C1_counterexample :
    refusingCache.store
        (cacheKey (inputOf (envWith refusingCache (upstreamAnswers 200)) calcRequest)) = none
      ∧ refusingCache.Get
          (cacheKey (inputOf (envWith refusingCache (upstreamAnswers 200)) calcRequest))
          = (none, some GoError.ErrCacheMiss)
      ∧ Forward (envWith refusingCache (upstreamAnswers 200))
          (parsedRequest (envWith refusingCache (upstreamAnswers 200)) calcRequest)
          = ForwardResult.ret
              (targetRequestOf
                (parsedRequest (envWith refusingCache (upstreamAnswers 200)) calcRequest))
              (some (upstreamResponse 200)) none
      ∧ (upstreamResponse 200).Body.data = [52, 50]
      ∧ (HashCacheServer (envWith refusingCache (upstreamAnswers 200))
          http.ResponseWriter.fresh calcRequest).forwards
          = [targetRequestOf
              (parsedRequest (envWith refusingCache (upstreamAnswers 200)) calcRequest)]
      ∧ (HashCacheServer (envWith refusingCache (upstreamAnswers 200))
          http.ResponseWriter.fresh calcRequest).writer.body = [52, 50]
      ∧ (HashCacheServer (envWith refusingCache (upstreamAnswers 200))
          http.ResponseWriter.fresh calcRequest).sets
          = [{ Key := cacheKey
                (inputOf (envWith refusingCache (upstreamAnswers 200)) calcRequest),
               Value := [52, 50] }]
      ∧ (HashCacheServer (envWith refusingCache (upstreamAnswers 200))
          http.ResponseWriter.fresh calcRequest).mc.store
            (cacheKey (inputOf (envWith refusingCache (upstreamAnswers 200)) calcRequest))
          = none
      ∧ (HashCacheServer (envWith refusingCache (upstreamAnswers 200))
          http.ResponseWriter.fresh calcRequest).mc.store
            (cacheKey (inputOf (envWith refusingCache (upstreamAnswers 200)) calcRequest))
          ≠ some [52, 50] := by
  have hget : (envWith refusingCache (upstreamAnswers 200)).mc.Get
      (cacheKey (inputOf (envWith refusingCache (upstreamAnswers 200)) calcRequest))
      = (none, some GoError.ErrCacheMiss) := by
    rw [memcache.Get_cacheKey]; rfl
  have hf : Forward (envWith refusingCache (upstreamAnswers 200))
      (parsedRequest (envWith refusingCache (upstreamAnswers 200)) calcRequest)
      = ForwardResult.ret
          (targetRequestOf
            (parsedRequest (envWith refusingCache (upstreamAnswers 200)) calcRequest))
          (some (upstreamResponse 200)) none :=
    Forward_returns _ _ (by decide) rfl
  rw [HashCacheServer_populate _ _ _ _ _ _ hget hf, memcache.Set_cacheKey]
  refine ⟨rfl, hget, hf, rfl, rfl, rfl, rfl, rfl, ?_⟩
  show (none : Option Bytes) ≠ some [52, 50]
  exact fun h => Option.noConfusion h

/-- C2: on the cache-aside path, when the store holds `v` under the key of the
input (`v` may be empty) and the get works, the body written to the caller is
`v`, no upstream call is made, no set is issued and the store is unchanged. -/
theorem C2_hit_serves_cached_bytes (env : Env) (r : http.Request) (v : Bytes)
    (hentry : env.mc.store (cacheKey (inputOf env r)) = some v)
    (hworks : env.mc.getErr = none) :
    (HashCacheServer env http.ResponseWriter.fresh r).writer.body = v
      ∧ (HashCacheServer env http.ResponseWriter.fresh r).forwards = []
      ∧ (HashCacheServer env http.ResponseWriter.fresh r).sets = []
      ∧ (HashCacheServer env http.ResponseWriter.fresh r).mc.store = env.mc.store
      ∧ (HashCacheServer env http.ResponseWriter.fresh r).panicked = false := by
  have hget : env.mc.Get (cacheKey (inputOf env r))
      = (some { Key := cacheKey (inputOf env r), Value := v }, none) := by
    rw [memcache.Get_cacheKey, hworks, hentry]
  rw [HashCacheServer_hit env _ r _ _ hget]
  exact ⟨rfl, rfl, rfl, rfl, rfl⟩

/-- C2 at the request `GET /calc?input=hello` with `42` cached under the key of
`hello` and an upstream that is down. -/
theorem C2_witness :
    (HashCacheServer (envWith warmCache upstreamDown) http.ResponseWriter.fresh
        calcRequest).writer.body = [52, 50]
      ∧ (HashCacheServer (envWith warmCache upstreamDown) http.ResponseWriter.fresh
        calcRequest).forwards = [] := by
  have hkey : cacheKey (inputOf (envWith warmCache upstreamDown) calcRequest)
      = "5d41402abc4b2a76b9719d911017c592" := cacheKey_hello
  have h := C2_hit_serves_cached_bytes (envWith warmCache upstreamDown) calcRequest [52, 50]
    (by rw [hkey]; rfl) rfl
  exact ⟨h.1, h.2.1⟩

/-- C6: a store error of the get is not surfaced.  When the get fails with an
error `e` and the upstream call returns a response with body `b`, the handler
forwards once, writes exactly `b`, prints `e` and issues the set, whatever the
set then does; the writer, the upstream call and the set are those of a run in
the same surroundings against a working store that misses. -/
theorem C6_store_errors_not_surfaced (env env0 : Env) (e : GoError) (r t : http.Request)
    (resp : http.Response)
    (hfail : env.mc.getErr = some e)
    (hworks0 : env0.mc.getErr = none)
    (hcold0 : env0.mc.store (cacheKey (inputOf env0 r)) = none)
    (hurl : env0.urlParse = env.urlParse)
    (hform : env0.parseForm = env.parseForm)
    (hnet : env0.roundTrip = env.roundTrip)
    (hup : Forward env (parsedRequest env r) = ForwardResult.ret t (some resp) none) :
    (HashCacheServer env http.ResponseWriter.fresh r).writer.body = resp.Body.data
      ∧ (HashCacheServer env http.ResponseWriter.fresh r).forwards = [t]
      ∧ (HashCacheServer env http.ResponseWriter.fresh r).sets
          = [{ Key := cacheKey (inputOf env r), Value := resp.Body.data }]
      ∧ (HashCacheServer env http.ResponseWriter.fresh r).panicked = false
      ∧ (HashCacheServer env http.ResponseWriter.fresh r).log = [e]
      ∧ (HashCacheServer env http.ResponseWriter.fresh r).writer
          = (HashCacheServer env0 http.ResponseWriter.fresh r).writer
      ∧ (HashCacheServer env http.ResponseWriter.fresh r).forwards
          = (HashCacheServer env0 http.ResponseWriter.fresh r).forwards
      ∧ (HashCacheServer env http.ResponseWriter.fresh r).sets
          = (HashCacheServer env0 http.ResponseWriter.fresh r).sets := by
  have hin : inputOf env0 r = inputOf env r := by unfold inputOf; rw [hform]
  have hreq : parsedRequest env0 r = parsedRequest env r := by
    unfold parsedRequest; rw [hform]
  have hget : env.mc.Get (cacheKey (inputOf env r)) = (none, some e) := by
    rw [memcache.Get_cacheKey, hfail]
  have hget0 : env0.mc.Get (cacheKey (inputOf env0 r)) = (none, some GoError.ErrCacheMiss) := by
    rw [memcache.Get_cacheKey, hworks0, hcold0]
  have hup0 : Forward env0 (parsedRequest env0 r) = ForwardResult.ret t (some resp) none := by
    rw [hreq, ← hup]
    unfold Forward
    rw [hurl, hnet]
  rw [HashCacheServer_populate env _ r t resp _ hget hup,
    HashCacheServer_populate env0 _ r t resp _ hget0 hup0, hin]
  exact ⟨rfl, rfl, rfl, rfl, rfl, rfl, rfl, rfl⟩

/-- C6 at the request `GET /calc?input=hello` with unreachable cache nodes and
an upstream that answers 200 with body `42`. -/
theorem C6_witness :
    (HashCacheServer (envWith brokenCache (upstreamAnswers 200)) http.ResponseWriter.fresh
        calcRequest).writer.body = [52, 50]
      ∧ (HashCacheServer (envWith brokenCache (upstreamAnswers 200)) http.ResponseWriter.fresh
        calcRequest).writer
          = (HashCacheServer (envWith coldCache (upstreamAnswers 200))
              http.ResponseWriter.fresh calcRequest).writer := by
  have h := C6_store_errors_not_surfaced (envWith brokenCache (upstreamAnswers 200))
    (envWith coldCache (upstreamAnswers 200)) (GoError.other "connection refused")
    calcRequest
    (targetRequestOf (parsedRequest (envWith coldCache (upstreamAnswers 200)) calcRequest))
    (upstreamResponse 200) rfl rfl rfl rfl rfl rfl (Forward_returns _ _ (by decide) rfl)
  exact ⟨h.1, h.2.2.2.2.2.1⟩

/-- C7: on the cache-aside path, when the get reports a miss and the call of
`Forward` returns an error, nothing is written to the caller (the body is
empty), no set is issued and the store is unchanged. -/
theorem C7_failed_fetch_not_cached (env : Env) (r t : http.Request)
    (resp : Option http.Response) (ferr : GoError)
    (hmiss : env.mc.Get (cacheKey (inputOf env r)) = (none, some GoError.ErrCacheMiss))
    (hup : Forward env (parsedRequest env r) = ForwardResult.ret t resp (some ferr)) :
    (HashCacheServer env http.ResponseWriter.fresh r).writer.body = []
      ∧ (HashCacheServer env http.ResponseWriter.fresh r).writer.wroteHeader = false
      ∧ (HashCacheServer env http.ResponseWriter.fresh r).sets = []
      ∧ (HashCacheServer env http.ResponseWriter.fresh r).mc.store = env.mc.store
      ∧ (HashCacheServer env http.ResponseWriter.fresh r).panicked = false := by
  rw [HashCacheServer_forward_error env _ r t resp _ ferr hmiss hup]
  exact ⟨rfl, rfl, rfl, rfl, rfl⟩

/-- C7 at the request `GET /calc?input=hello` with a cold cache and an upstream
that is down. -/
theorem C7_witness :
    (HashCacheServer (envWith coldCache upstreamDown) http.ResponseWriter.fresh
        calcRequest).writer.body = []
      ∧ (HashCacheServer (envWith coldCache upstreamDown) http.ResponseWriter.fresh
        calcRequest).sets = [] := by
  have h := C7_failed_fetch_not_cached (envWith coldCache upstreamDown) calcRequest
    (targetRequestOf (parsedRequest (envWith coldCache upstreamDown) calcRequest))
    none (GoError.other "dial tcp: connection refused")
    (by rw [memcache.Get_cacheKey]; rfl) (Forward_returns _ _ (by decide) rfl)
  exact ⟨h.1, h.2.2.1⟩

/-- C3: the keys of two input values are equal exactly when their MD5 digests
are equal (equal inputs give equal keys, and the hexadecimal encoding maps no
two digests to one key), and the key that `HashCacheServer` uses is the key of
the input value, whatever else the request or its surroundings hold. -/
theorem C3_key_equal_iff_digest_equal :
    (∀ a b : Bytes, cacheKey a = cacheKey b ↔ md5.Sum a = md5.Sum b)
      ∧ (∀ a b : Bytes, a = b → cacheKey a = cacheKey b)
      ∧ (∀ d1 d2 : Bytes, hex.EncodeToString d1 = hex.EncodeToString d2 → d1 = d2)
      ∧ (∀ (env : Env) (w : http.ResponseWriter) (r : http.Request),
          (HashCacheServer env w r).gets = [cacheKey (inputOf env r)]) := by
  have hinj : ∀ d1 d2 : Bytes, hex.EncodeToString d1 = hex.EncodeToString d2 → d1 = d2 := by
    intro d1 d2 h
    exact hex.encode_injective d1 d2 (congrArg String.data h)
  refine ⟨?_, ?_, hinj, HashCacheServer_gets⟩
  · intro a b
    constructor
    · intro h; exact hinj _ _ h
    · intro h; simp only [cacheKey, h]
  · intro a b h; rw [h]

/-- C10: the key of every input value is the lowercase hexadecimal encoding of
its 16-byte MD5 digest: 32 characters, each one of `0-9a-f`, with the high
nibble of byte `i` at position `2 i` and its low nibble at position `2 i + 1`;
it is the key that `HashCacheServer` looks up, and a missing input parameter
gives the key of the empty string. -/
theorem C10_key_is_hex_of_md5 :
    (∀ input : Bytes,
      cacheKey input = hex.EncodeToString (md5.Sum input)
        ∧ (md5.Sum input).length = 16
        ∧ (cacheKey input).length = 32
        ∧ (∀ c ∈ (cacheKey input).data, c ∈ "0123456789abcdef".data)
        ∧ ∀ (i : Nat) (b : UInt8), (md5.Sum input)[i]? = some b →
            (cacheKey input).data[2 * i]?
                = some ("0123456789abcdef".data.getD (b.toNat / 16) '0')
              ∧ (cacheKey input).data[2 * i + 1]?
                = some ("0123456789abcdef".data.getD (b.toNat % 16) '0'))
      ∧ (∀ (env : Env) (w : http.ResponseWriter) (r : http.Request),
          (HashCacheServer env w r).gets = [cacheKey (inputOf env r)])
      ∧ (∀ (env : Env) (r : http.Request) (form : http.Values),
          r.Form = some form → http.Values.values form "input" = [] →
            cacheKey (inputOf env r) = "d41d8cd98f00b204e9800998ecf8427e") := by
  refine ⟨?_, HashCacheServer_gets, ?_⟩
  · intro input
    refine ⟨rfl, md5.Sum_length input, ?_, ?_, ?_⟩
    · show (hex.encode (md5.Sum input)).length = 32
      rw [hex.encode_length, md5.Sum_length]
    · exact hex.encode_mem (md5.Sum input)
    · intro i b h
      exact hex.encode_getElem (md5.Sum input) i b h
  · intro env r form hform hmissing
    have h0 : inputOf env r = [] := by
      simp [inputOf, http.Request.FormValue, hform, hmissing]
    rw [h0]
    exact cacheKey_empty

/-- C4: for an inbound request as the server delivers it, whose target
`url.Parse` accepts, `Forward` builds one outbound request and hands it to
`client.Do`: it has the inbound method and the inbound body, under every key
the inbound list of values in the same order, and no key that the inbound
request lacks. -/
theorem C4_forward_copies_method_headers_body (env : Env) (r : http.Request)
    (hwf : r.wellFormed)
    (hurl : env.urlParse ("http://" ++ r.RemoteAddr ++ r.RequestURI) = true) :
    ∃ t : http.Request,
      Forward env r = ForwardResult.ret t (env.roundTrip t).1 (env.roundTrip t).2
        ∧ t.Method = r.Method
        ∧ t.Body = r.Body
        ∧ (∀ k, t.Header.values k = r.Header.values k)
        ∧ (∀ k, k ∈ t.Header.keys → k ∈ r.Header.keys) := by
  refine ⟨targetRequestOf r, Forward_returns env r hwf.1 hurl, rfl, rfl, ?_, ?_⟩
  · intro k
    show (http.Header.values _ k) = _
    simp only [targetRequestOf]
    rw [http.Header.values_copy r.Header hwf.2 [] k]
    simp [http.Header.values]
  · intro k hk
    simp only [targetRequestOf] at hk
    rcases http.Header.keys_copy r.Header hwf.2 [] k hk with h | h
    · simp [http.Header.keys] at h
    · exact h

/-- C4 at the request `POST /other/path` with header `X-Test: 1`, two `Accept`
values and a body. -/
theorem C4_witness :
    ∃ t : http.Request,
      Forward (envWith coldCache (upstreamAnswers 200)) otherRequest
          = ForwardResult.ret t (some (upstreamResponse 200)) none
        ∧ t.Method = "POST"
        ∧ t.Body = otherRequest.Body
        ∧ (∀ k, t.Header.values k = otherRequest.Header.values k)
        ∧ (∀ k, k ∈ t.Header.keys → k ∈ otherRequest.Header.keys) :=
  C4_forward_copies_method_headers_body (envWith coldCache (upstreamAnswers 200))
    otherRequest (by decide) rfl

/-- C5: on the transparent path, whenever `Forward` returns an upstream
response (with header map as the client parsed it), the response sent to the
caller carries under every key the upstream list of values in the same order,
no key that the upstream response lacks, and a body equal to the upstream
body. -/
theorem C5_proxy_mirrors_headers_and_body (env : Env) (r t : http.Request)
    (resp : http.Response) (e : Option GoError)
    (hup : Forward env r = ForwardResult.ret t (some resp) e)
    (hwf : resp.Header.wellFormed) :
    (Proxy env http.ResponseWriter.fresh r).writer.wroteHeader = true
      ∧ (∀ k, (Proxy env http.ResponseWriter.fresh r).writer.sentHeader.values k
          = resp.Header.values k)
      ∧ (∀ k, k ∈ (Proxy env http.ResponseWriter.fresh r).writer.sentHeader.keys →
          k ∈ resp.Header.keys)
      ∧ (Proxy env http.ResponseWriter.fresh r).writer.body = resp.Body.data
      ∧ (Proxy env http.ResponseWriter.fresh r).panicked = false := by
  rw [Proxy_response env _ r t resp e hup]
  refine ⟨rfl, ?_, ?_, rfl, rfl⟩
  · intro k
    show http.Header.values (List.foldl _ [] resp.Header) k = _
    rw [http.Header.values_copy resp.Header hwf [] k]
    simp [http.Header.values]
  · intro k hk
    have hk2 : k ∈ http.Header.keys (List.foldl
        (fun h kv => kv.2.foldl (fun h value => http.Header.Add h kv.1 value) h)
        [] resp.Header) := hk
    rcases http.Header.keys_copy resp.Header hwf [] k hk2 with h | h
    · simp [http.Header.keys] at h
    · exact h

/-- C5 at the request `POST /other/path` with an upstream that answers 200 with
two header keys and body `42`. -/
theorem C5_witness :
    (Proxy (envWith coldCache (upstreamAnswers 200)) http.ResponseWriter.fresh
        otherRequest).writer.body = [52, 50]
      ∧ (Proxy (envWith coldCache (upstreamAnswers 200)) http.ResponseWriter.fresh
        otherRequest).writer.sentHeader.values "Set-Cookie" = ["a=1", "b=2"] := by
  have h := C5_proxy_mirrors_headers_and_body (envWith coldCache (upstreamAnswers 200))
    otherRequest (targetRequestOf otherRequest) (upstreamResponse 200) none
    (Forward_returns _ _ (by decide) rfl) (by decide)
  exact ⟨h.2.2.2.1, h.2.1 "Set-Cookie"⟩

/-- C8: at the request `POST /other/path` with an upstream that is down,
`Forward` returns an error and no response, and `Proxy` dereferences the nil
response: the handler panics and nothing is written to the caller. -/
theorem C8_proxy_panics_when_upstream_down :
    Forward (envWith coldCache upstreamDown) otherRequest
        = ForwardResult.ret (targetRequestOf otherRequest) none
            (some (GoError.other "dial tcp: connection refused"))
      ∧ (Proxy (envWith coldCache upstreamDown) http.ResponseWriter.fresh
          otherRequest).panicked = true
      ∧ (Proxy (envWith coldCache upstreamDown) http.ResponseWriter.fresh
          otherRequest).writer.wroteHeader = false
      ∧ (Proxy (envWith coldCache upstreamDown) http.ResponseWriter.fresh
          otherRequest).writer.body = [] := by
  have hf : Forward (envWith coldCache upstreamDown) otherRequest
      = ForwardResult.ret (targetRequestOf otherRequest) none
          (some (GoError.other "dial tcp: connection refused")) :=
    Forward_returns _ _ (by decide) rfl
  rw [Proxy_no_response _ _ _ _ _ hf]
  exact ⟨hf, rfl, rfl, rfl⟩

/-- C9, as the code has it: on the transparent path, whenever `Forward` returns
an upstream response, the status sent to the caller is 200, the status of the
first `Write`, whatever the upstream status. -/
theorem C9_proxy_status_is_200 (env : Env) (r t : http.Request) (resp : http.Response)
    (e : Option GoError) (hup : Forward env r = ForwardResult.ret t (some resp) e) :
    (Proxy env http.ResponseWriter.fresh r).writer.wroteHeader = true
      ∧ (Proxy env http.ResponseWriter.fresh r).writer.status = 200 := by
  rw [Proxy_response env _ r t resp e hup]
  exact ⟨rfl, rfl⟩

/-- C9 as amended, at the request `POST /other/path` with an upstream that
answers 500. -/
theorem C9_witness :
    (Proxy (envWith coldCache (upstreamAnswers 500)) http.ResponseWriter.fresh
        otherRequest).writer.status = 200 :=
  (C9_proxy_status_is_200 (envWith coldCache (upstreamAnswers 500)) otherRequest
    (targetRequestOf otherRequest) (upstreamResponse 500) none
    (Forward_returns _ _ (by decide) rfl)).2

/-- C9 as stated fails: at the request `POST /other/path` with an upstream that
answers 404, the status sent to the caller is 200 and not 404. -/
theorem C9_counterexample :
    Forward (envWith coldCache (upstreamAnswers 404)) otherRequest
        = ForwardResult.ret (targetRequestOf otherRequest) (some (upstreamResponse 404)) none
      ∧ (upstreamResponse 404).StatusCode = 404
      ∧ (Proxy (envWith coldCache (upstreamAnswers 404)) http.ResponseWriter.fresh
          otherRequest).writer.status = 200
      ∧ (Proxy (envWith coldCache (upstreamAnswers 404)) http.ResponseWriter.fresh
          otherRequest).writer.status ≠ (upstreamResponse 404).StatusCode := by
  have hf : Forward (envWith coldCache (upstreamAnswers 404)) otherRequest
      = ForwardResult.ret (targetRequestOf otherRequest) (some (upstreamResponse 404)) none :=
    Forward_returns _ _ (by decide) rfl
  rw [Proxy_response _ _ _ _ _ _ hf]
  exact ⟨hf, rfl, rfl, by decide⟩
